import Mathlib

/-!
Verification of the plotting utility library `plot_utils.py`.

The development shallowly embeds the Python source:

* A dataframe (`pandas.DataFrame`) is a `List Row`; a `Row` stores its
  categorical fields (used for grouping and baseline filtering) in `cat`
  and its numeric fields (timings, speedups, baselines) in `num`.
  Numeric cells are modelled as exact reals; the floating-point claims in
  the informal description are read as statements about exact arithmetic.
* `compute_speedup_df` is translated operation by operation: column
  initialisation, `groupby` with pandas' default sorted key order, the
  per-group baseline lookup, the speedup write-back, and the optional
  geometric-mean correction that rereads the mutated frame.
* `remove_outliers`, `fix_label_length` and `update_width` are embedded as
  the pure list transformations they are.  Python strings are modelled as
  `List Char` so that slicing with negative bounds keeps Python semantics.
-/

/-- A dataframe row: categorical columns (strings) and numeric columns
(reals).  Categorical columns carry the grouping key and the baseline
filter fields; numeric columns carry timings, speedups and baselines. -/
@[ext] structure Row where
  cat : String → String
  num : String → ℝ

/-- Write value `v` into numeric column `c` of row `r`
(the effect of a pandas cell assignment on one row). -/
noncomputable def setNum (r : Row) (c : String) (v : ℝ) : Row :=
  ⟨r.cat, Function.update r.num c v⟩

theorem cat_setNum (r : Row) (c : String) (v : ℝ) : (setNum r c v).cat = r.cat := rfl

theorem num_setNum_same (r : Row) (c : String) (v : ℝ) : (setNum r c v).num c = v := by
  unfold setNum
  exact Function.update_same c v r.num

theorem num_setNum_ne (r : Row) (c c' : String) (v : ℝ) (h : c' ≠ c) :
    (setNum r c v).num c' = r.num c' := by
  unfold setNum
  exact Function.update_noteq h v r.num

theorem setNum_setNum_same (r : Row) (c : String) (v w : ℝ) :
    setNum (setNum r c v) c w = setNum r c w := by
  unfold setNum
  exact Row.ext rfl (Function.update_idem v w r.num)

theorem setNum_comm (r : Row) (c c' : String) (v w : ℝ) (h : c ≠ c') :
    setNum (setNum r c v) c' w = setNum (setNum r c' w) c v := by
  unfold setNum
  exact Row.ext rfl (Function.update_comm h v w r.num)

/-! ### Label truncation (`fix_label_length`)

Python strings are `List Char`; `pySlice s n` is the Python slice `s[:n]`,
including the semantics of a negative bound (count from the end, clamp at
zero). -/

/-- Python slice `s[:n]` for an integer bound `n`. -/
def pySlice (s : List Char) (n : ℤ) : List Char :=
  if 0 ≤ n then s.take n.toNat else s.take (s.length - (-n).toNat)

/-- One loop iteration of `fix_label_length`: keep a short label, otherwise
truncate to `max_length - 3` characters and append `"..."`. -/
def fix_label (l : List Char) (max_length : ℤ) : List Char :=
  if (l.length : ℤ) ≤ max_length then l else pySlice l (max_length - 3) ++ ['.', '.', '.']

/-- `fix_label_length` from the source: the loop over `labels` accumulating
`fixed_labels` is the map of `fix_label`. -/
def fix_label_length (labels : List (List Char)) (max_length : ℤ) : List (List Char) :=
  labels.map (fun l => fix_label l max_length)

/-! ### Bar recentring (`update_width`) -/

/-- A matplotlib bar patch, reduced to the geometry `update_width` touches:
its left x-coordinate and its width. -/
structure Patch where
  x : ℝ
  width : ℝ

/-- `update_width` from the source: each bar gets the new width and is moved
right by half the width difference, recentring it. -/
noncomputable def update_width (patches : List Patch) (width : ℝ) : List Patch :=
  patches.map (fun p => { x := p.x + 0.5 * (p.width - width), width := width })

/-! ### Outlier removal (`remove_outliers`) -/

/-- Mean of a list of reals (`np.mean`). -/
noncomputable def lmean (xs : List ℝ) : ℝ := xs.sum / xs.length

/-- Population standard deviation of a list of reals, as used by
`scipy.stats.zscore` (`ddof = 0`). -/
noncomputable def lstd (xs : List ℝ) : ℝ :=
  Real.sqrt ((xs.map (fun x => (x - lmean xs) ^ 2)).sum / xs.length)

/-- `scipy.stats.zscore`: elementwise `(x - mean) / std`. -/
noncomputable def zscore (xs : List ℝ) : List ℝ :=
  xs.map (fun x => (x - lmean xs) / lstd xs)

/-- `remove_outliers` from the source: boolean-mask selection
`data[np.abs(st.zscore(data)) < sigmas]`. -/
noncomputable def remove_outliers (xs : List ℝ) (sigmas : ℝ) : List ℝ :=
  ((xs.zip (zscore xs)).filter (fun p => decide (|p.2| < sigmas))).map Prod.fst

theorem zip_map_filter_fst (xs : List ℝ) (m s k : ℝ) :
    ((xs.zip (xs.map (fun x => (x - m) / s))).filter (fun p => decide (|p.2| < k))).map Prod.fst
      = xs.filter (fun x => decide (|(x - m) / s| < k)) := by
  induction xs with
  | nil => rfl
  | cons x xs ih =>
      by_cases h : |(x - m) / s| < k
      · simp only [List.map_cons, List.zip_cons_cons, List.filter_cons, decide_eq_true_eq, h,
          if_true, List.map_cons]
        rw [ih]
      · simp only [List.map_cons, List.zip_cons_cons, List.filter_cons, decide_eq_true_eq, h,
          if_false]
        rw [ih]

theorem fix_label_le (l : List Char) (m : ℤ) (h3 : 3 ≤ m) :
    ((fix_label l m).length : ℤ) ≤ m := by
  unfold fix_label pySlice
  by_cases h : (l.length : ℤ) ≤ m
  · rw [if_pos h]
    exact h
  · rw [if_neg h]
    have h0 : (0 : ℤ) ≤ m - 3 := by omega
    rw [if_pos h0, List.length_append, List.length_take]
    have ht : ((m - 3).toNat : ℤ) = m - 3 := Int.toNat_of_nonneg h0
    have hd : (['.', '.', '.'] : List Char).length = 3 := rfl
    rw [hd]
    push_cast [ht]
    omega

/-- C9 (amended): for a maximum length of at least 3, every output label of
`fix_label_length` has length at most the maximum, and every truncated label
ends with the ellipsis marker `"..."`. -/
theorem fix_label_length_spec (labels : List (List Char)) (m : ℤ) (h3 : 3 ≤ m) :
    (∀ l ∈ fix_label_length labels m, (l.length : ℤ) ≤ m) ∧
    (∀ s ∈ labels, m < (s.length : ℤ) → ['.', '.', '.'] <:+ fix_label s m) := by
  constructor
  · intro l hl
    obtain ⟨s, _, rfl⟩ := List.mem_map.1 hl
    exact fix_label_le s m h3
  · intro s _ hlong
    unfold fix_label
    rw [if_neg (by omega)]
    exact List.suffix_append _ _

/-- C9 (counterexample): with maximum length 2 the label `"abc"` is turned
into `"ab..."`, which is longer than 2, refuting the claim for all lengths. -/
theorem fix_label_length_short_violation :
    ¬ (∀ l ∈ fix_label_length [['a', 'b', 'c']] 2, (l.length : ℤ) ≤ 2) := by decide

theorem fix_label_length_spec_witness :
    (3 : ℤ) ≤ 20 ∧
      ((∀ l ∈ fix_label_length [['a']] 20, (l.length : ℤ) ≤ 20) ∧
        (∀ s ∈ [['a']], 20 < (s.length : ℤ) → ['.', '.', '.'] <:+ fix_label s 20)) :=
  ⟨by norm_num, fix_label_length_spec [['a']] 20 (by norm_num)⟩

/-- C10: `update_width` preserves every bar's horizontal center
`x + width / 2`, whatever new width is requested. -/
theorem update_width_preserves_center (patches : List Patch) (w : ℝ) :
    (update_width patches w).map (fun p => p.x + p.width / 2)
      = patches.map (fun p => p.x + p.width / 2) := by
  unfold update_width
  rw [List.map_map]
  congr 1
  funext p
  simp only [Function.comp]
  ring

/-- C8: when the standard deviation is nonzero, `remove_outliers` keeps
exactly the values whose distance from the mean is (strictly) below
`sigmas` standard deviations; everything discarded lies outside that range. -/
theorem remove_outliers_spec (xs : List ℝ) (k : ℝ) (h : 0 < lstd xs) :
    remove_outliers xs k = xs.filter (fun x => decide (|x - lmean xs| < k * lstd xs)) := by
  unfold remove_outliers zscore
  rw [zip_map_filter_fst xs (lmean xs) (lstd xs) k]
  refine List.filter_congr ?_
  intro x _
  rw [decide_eq_decide]
  rw [abs_div, abs_of_pos h, div_lt_iff₀ h]

theorem remove_outliers_spec_witness :
    0 < lstd [0, 2] ∧
      remove_outliers [0, 2] 3
        = [0, 2].filter (fun x => decide (|x - lmean [0, 2]| < 3 * lstd [0, 2])) := by
  have h : 0 < lstd [0, 2] := by
    unfold lstd
    rw [Real.sqrt_pos]
    norm_num [lmean]
  exact ⟨h, remove_outliers_spec [0, 2] 3 h⟩

/-! ### Grouped speedup computation (`compute_speedup_df`)

The embedding follows the source line by line.  `matchesFilter` is the
baseline row selection `reduce(intersection, [data[data[i] == j].index for
i, j in zip(baseline_filter_col, baseline_filter_val)])`: a row is in the
intersection exactly when it matches every `(column, value)` pair.
`groupOrder` is the iteration order of `data.groupby(key, as_index=False)`,
which uses pandas' default `sort=True`: the distinct key values in
ascending lexicographic order. -/

/-- Baseline membership of one row: the row satisfies every
`(column, value)` equality of the baseline filter. -/
def matchesFilter (bcols bvals : List String) (r : Row) : Bool :=
  (bcols.zip bvals).all (fun p => r.cat p.1 == p.2)

/-- The values of numeric column `c` over the baseline subset of `d`
(`data.loc[reduced_index, c]`). -/
noncomputable def baselineNums (bcols bvals : List String) (c : String) (d : List Row) : List ℝ :=
  (d.filter (fun r => matchesFilter bcols bvals r)).map (fun r => r.num c)

/-- Lexicographic comparison of char lists by code point, the order pandas
uses when sorting string group keys. -/
def charListLe : List Char → List Char → Bool
  | [], _ => true
  | _ :: _, [] => false
  | a :: as, b :: bs => if a < b then true else if b < a then false else charListLe as bs

/-- Lexicographic comparison of strings. -/
def strLe (a b : String) : Bool := charListLe a.data b.data

/-- Insert a string into a sorted list of strings. -/
def insS (x : String) : List String → List String
  | [] => [x]
  | y :: ys => if strLe x y then x :: y :: ys else y :: insS x ys

/-- Insertion sort on strings (ascending). -/
def sortStr (l : List String) : List String := l.foldr insS []

/-- The distinct elements of `l` in order of first appearance. -/
def firstSeenKeys (l : List String) : List String :=
  l.foldl (fun acc k => if k ∈ acc then acc else acc ++ [k]) []

/-- The group iteration order of `data.groupby(key, as_index=False)`:
pandas' default `sort=True` iterates the distinct key values in ascending
order. -/
def groupOrder (d : List Row) (key : String) : List String :=
  sortStr (firstSeenKeys (d.map (fun r => r.cat key)))

/-- Modelled from the spec: "iterate groups in the table's natural
(first-seen) order".  The spec's claimed iteration order, for comparison
with the source's `groupOrder`. -/
def firstSeenOrder (d : List Row) (key : String) : List String :=
  firstSeenKeys (d.map (fun r => r.cat key))

/-- Insert a real into a sorted list of reals. -/
noncomputable def insR (x : ℝ) : List ℝ → List ℝ
  | [] => [x]
  | y :: ys => if x ≤ y then x :: y :: ys else y :: insR x ys

/-- Insertion sort on reals (ascending). -/
noncomputable def sortR (l : List ℝ) : List ℝ := l.foldr insR []

/-- `np.median`: middle element of the sorted list for odd length, average
of the two middle elements for even length. -/
noncomputable def median (xs : List ℝ) : ℝ :=
  if xs.length % 2 = 1 then (sortR xs).getD (xs.length / 2) 0
  else ((sortR xs).getD (xs.length / 2 - 1) 0 + (sortR xs).getD (xs.length / 2) 0) / 2

/-- `scipy.stats.mstats.gmean`: the exponential of the mean of the logs
(equal to `prod ^ (1/n)` on positive data). -/
noncomputable def gmean (xs : List ℝ) : ℝ :=
  Real.exp ((xs.map Real.log).sum / xs.length)

/-- Column initialisation `data[speedup_col_name] = 1;
data[baseline_col_name] = 0` on one row. -/
noncomputable def initRow (scol bcol : String) (r : Row) : Row :=
  setNum (setNum r scol 1) bcol 0

/-- Column initialisation over the whole frame. -/
noncomputable def initRows (d : List Row) (scol bcol : String) : List Row :=
  d.map (initRow scol bcol)

/-- The two `group.loc` assignments of one uncorrected group pass, as they
land on one row of the group after the write-back
`data.loc[group.index, :] = group`: speedup `ref / t`, baseline `ref`. -/
noncomputable def writeRow (scol tcol bcol : String) (ref : ℝ) (r : Row) : Row :=
  setNum (setNum r scol (ref / r.num tcol)) bcol ref

/-- Per-row effect of the raw speedup computation of group `k`: rows of the
group are written, all other rows are untouched. -/
noncomputable def rawWrite (key scol tcol bcol k : String) (ref : ℝ) (r : Row) : Row :=
  if r.cat key = k then writeRow scol tcol bcol ref r else r

/-- Per-row effect of the correction `group.loc[:, speedup] /= gmean_speedup`
and its write-back. -/
noncomputable def corrWrite (key scol k : String) (g : ℝ) (r : Row) : Row :=
  if r.cat key = k then setNum r scol (r.num scol / g) else r

/-- One iteration of the `for group_key, group in grouped_data` loop: compute
the reference from the current frame, write raw speedups and baselines into
the group's rows, and, if correction is on, reread the baseline subset's
speedups from the updated frame and divide the group's speedups by their
geometric mean. -/
noncomputable def processGroup (key : String) (bcols bvals : List String)
    (scol tcol bcol : String) (correction : Bool) (agg : List ℝ → ℝ)
    (d : List Row) (k : String) : List Row :=
  let ref := agg (baselineNums bcols bvals tcol d)
  let d' := d.map (rawWrite key scol tcol bcol k ref)
  if correction then
    d'.map (corrWrite key scol k (gmean (baselineNums bcols bvals scol d')))
  else d'

/-- `compute_speedup_df` with an explicit group iteration order. -/
noncomputable def compute_speedup_df_with_order (order : List String) (data : List Row)
    (key : String) (bcols bvals : List String) (scol tcol bcol : String)
    (correction : Bool) (agg : List ℝ → ℝ) : List Row :=
  List.foldl (processGroup key bcols bvals scol tcol bcol correction agg)
    (initRows data scol bcol) order

/-- `compute_speedup_df` from the source: initialise the two derived
columns, then process the groups in pandas' sorted unique-key order. -/
noncomputable def compute_speedup_df (data : List Row) (key : String)
    (bcols bvals : List String) (scol tcol bcol : String)
    (correction : Bool) (agg : List ℝ → ℝ) : List Row :=
  compute_speedup_df_with_order (groupOrder (initRows data scol bcol) key)
    data key bcols bvals scol tcol bcol correction agg

/-! ### Basic facts about the row operations -/

theorem matchesFilter_of_cat_eq (bcols bvals : List String) (r r' : Row)
    (h : r'.cat = r.cat) : matchesFilter bcols bvals r' = matchesFilter bcols bvals r := by
  unfold matchesFilter
  rw [h]

theorem cat_writeRow (scol tcol bcol : String) (ref : ℝ) (r : Row) :
    (writeRow scol tcol bcol ref r).cat = r.cat := rfl

theorem num_writeRow_bcol (scol tcol bcol : String) (ref : ℝ) (r : Row) :
    (writeRow scol tcol bcol ref r).num bcol = ref := by
  unfold writeRow
  rw [num_setNum_same]

theorem num_writeRow_scol (scol tcol bcol : String) (ref : ℝ) (r : Row)
    (hsb : scol ≠ bcol) :
    (writeRow scol tcol bcol ref r).num scol = ref / r.num tcol := by
  unfold writeRow
  rw [num_setNum_ne _ _ _ _ hsb, num_setNum_same]

theorem num_writeRow_ne (scol tcol bcol : String) (ref : ℝ) (r : Row) (c : String)
    (hcs : c ≠ scol) (hcb : c ≠ bcol) :
    (writeRow scol tcol bcol ref r).num c = r.num c := by
  unfold writeRow
  rw [num_setNum_ne _ _ _ _ hcb, num_setNum_ne _ _ _ _ hcs]

theorem cat_rawWrite (key scol tcol bcol k : String) (ref : ℝ) (r : Row) :
    (rawWrite key scol tcol bcol k ref r).cat = r.cat := by
  unfold rawWrite
  split
  · rfl
  · rfl

theorem num_rawWrite_ne (key scol tcol bcol k : String) (ref : ℝ) (r : Row) (c : String)
    (hcs : c ≠ scol) (hcb : c ≠ bcol) :
    (rawWrite key scol tcol bcol k ref r).num c = r.num c := by
  unfold rawWrite
  split
  · rw [num_writeRow_ne _ _ _ _ _ _ hcs hcb]
  · rfl

theorem cat_corrWrite (key scol k : String) (g : ℝ) (r : Row) :
    (corrWrite key scol k g r).cat = r.cat := by
  unfold corrWrite
  split
  · rfl
  · rfl

theorem num_corrWrite_ne (key scol k : String) (g : ℝ) (r : Row) (c : String)
    (hcs : c ≠ scol) :
    (corrWrite key scol k g r).num c = r.num c := by
  unfold corrWrite
  split
  · rw [num_setNum_ne _ _ _ _ hcs]
  · rfl

theorem cat_initRow (scol bcol : String) (r : Row) : (initRow scol bcol r).cat = r.cat := rfl

theorem num_initRow_ne (scol bcol : String) (r : Row) (c : String)
    (hcs : c ≠ scol) (hcb : c ≠ bcol) :
    (initRow scol bcol r).num c = r.num c := by
  unfold initRow
  rw [num_setNum_ne _ _ _ _ hcb, num_setNum_ne _ _ _ _ hcs]

theorem num_initRow_scol (scol bcol : String) (r : Row) (hsb : scol ≠ bcol) :
    (initRow scol bcol r).num scol = 1 := by
  unfold initRow
  rw [num_setNum_ne _ _ _ _ hsb, num_setNum_same]

theorem num_initRow_bcol (scol bcol : String) (r : Row) :
    (initRow scol bcol r).num bcol = 0 := by
  unfold initRow
  rw [num_setNum_same]

/-- The baseline subset's values of a column are unchanged by any per-row
transformation that preserves the categorical columns and that column. -/
theorem baselineNums_map (bcols bvals : List String) (c : String) (d : List Row)
    (f : Row → Row) (hf : ∀ r, (f r).cat = r.cat) (hn : ∀ r, (f r).num c = r.num c) :
    baselineNums bcols bvals c (d.map f) = baselineNums bcols bvals c d := by
  unfold baselineNums
  induction d with
  | nil => rfl
  | cons r d ih =>
      simp only [List.map_cons, List.filter_cons,
        matchesFilter_of_cat_eq bcols bvals r (f r) (hf r)]
      by_cases h : matchesFilter bcols bvals r = true
      · rw [if_pos h, if_pos h]
        simp only [List.map_cons]
        rw [hn r, ih]
      · rw [if_neg h, if_neg h]
        exact ih

theorem baselineNums_nil (bcols bvals : List String) (c : String) (d : List Row)
    (h : ∀ r ∈ d, matchesFilter bcols bvals r = false) :
    baselineNums bcols bvals c d = [] := by
  unfold baselineNums
  rw [List.filter_eq_nil_iff.2 (fun r hr => by rw [h r hr]; exact Bool.false_ne_true)]
  rfl

/-- Overwriting a row a second time with the same reference has no further
effect (column distinctness keeps the timing column intact). -/
theorem writeRow_writeRow (scol tcol bcol : String) (ref : ℝ) (r : Row)
    (hst : scol ≠ tcol) (hbt : bcol ≠ tcol) (hsb : scol ≠ bcol) :
    writeRow scol tcol bcol ref (writeRow scol tcol bcol ref r)
      = writeRow scol tcol bcol ref r := by
  unfold writeRow
  rw [num_setNum_ne _ _ _ _ (Ne.symm hbt), num_setNum_ne _ _ _ _ (Ne.symm hst)]
  rw [setNum_comm _ bcol scol _ _ (Ne.symm hsb)]
  rw [setNum_setNum_same, setNum_setNum_same]

/-- Rows agreeing outside the two derived columns are written identically. -/
theorem writeRow_congr (scol tcol bcol : String) (ref : ℝ) (x y : Row)
    (hst : scol ≠ tcol) (hbt : bcol ≠ tcol)
    (hcat : x.cat = y.cat)
    (hother : ∀ c, c ≠ scol → c ≠ bcol → x.num c = y.num c) :
    writeRow scol tcol bcol ref x = writeRow scol tcol bcol ref y := by
  unfold writeRow setNum
  refine Row.ext hcat ?_
  funext c
  dsimp only
  by_cases hb : c = bcol
  · subst hb
    rw [Function.update_same, Function.update_same]
  · rw [Function.update_noteq hb, Function.update_noteq hb]
    by_cases hs : c = scol
    · subst hs
      rw [Function.update_same, Function.update_same,
        hother tcol (Ne.symm hst) (Ne.symm hbt)]
    · rw [Function.update_noteq hs, Function.update_noteq hs]
      exact hother c hs hb

/-- With correction disabled, one group pass is exactly the raw write. -/
theorem processGroup_false (key : String) (bcols bvals : List String)
    (scol tcol bcol : String) (agg : List ℝ → ℝ) (d : List Row) (k : String) :
    processGroup key bcols bvals scol tcol bcol false agg d k
      = d.map (rawWrite key scol tcol bcol k (agg (baselineNums bcols bvals tcol d))) := rfl

/-- Characterization of the uncorrected loop: after folding over any key
list, a row is untouched if its key was not processed, and otherwise holds
the raw speedup and baseline computed from the initial frame's reference
(the reference does not drift because the loop never changes the filter
columns or the timing column). -/
theorem foldl_processGroup_false (key : String) (bcols bvals : List String)
    (scol tcol bcol : String) (agg : List ℝ → ℝ)
    (hst : scol ≠ tcol) (hbt : bcol ≠ tcol) (hsb : scol ≠ bcol) :
    ∀ (ks : List String) (d : List Row),
      List.foldl (processGroup key bcols bvals scol tcol bcol false agg) d ks
        = d.map (fun r =>
            if r.cat key ∈ ks then
              writeRow scol tcol bcol (agg (baselineNums bcols bvals tcol d)) r
            else r) := by
  intro ks
  induction ks with
  | nil =>
      intro d
      rw [List.foldl_nil]
      simp
  | cons k ks ih =>
      intro d
      rw [List.foldl_cons, processGroup_false key bcols bvals scol tcol bcol agg d k,
        ih (d.map (rawWrite key scol tcol bcol k (agg (baselineNums bcols bvals tcol d))))]
      have href : baselineNums bcols bvals tcol
          (d.map (rawWrite key scol tcol bcol k (agg (baselineNums bcols bvals tcol d))))
            = baselineNums bcols bvals tcol d :=
        baselineNums_map bcols bvals tcol d _
          (fun r => cat_rawWrite key scol tcol bcol k _ r)
          (fun r => num_rawWrite_ne key scol tcol bcol k _ r tcol (Ne.symm hst) (Ne.symm hbt))
      rw [href, List.map_map]
      refine List.map_congr_left ?_
      intro r _
      dsimp only [Function.comp]
      by_cases h1 : r.cat key = k
      · simp only [rawWrite, if_pos h1]
        rw [cat_writeRow]
        have hmem : r.cat key ∈ k :: ks := by rw [h1]; exact List.mem_cons_self k ks
        rw [if_pos hmem]
        by_cases h2 : r.cat key ∈ ks
        · rw [if_pos h2, writeRow_writeRow scol tcol bcol _ r hst hbt hsb]
        · rw [if_neg h2]
      · simp only [rawWrite, if_neg h1]
        by_cases h2 : r.cat key ∈ ks
        · rw [if_pos h2, if_pos (List.mem_cons_of_mem k h2)]
        · rw [if_neg h2]
          have hnm : r.cat key ∉ k :: ks := by
            intro hc
            rcases List.mem_cons.1 hc with h | h
            · exact h1 h
            · exact h2 h
          rw [if_neg hnm]

/-- Shape of one group pass, correction on or off: it is a per-row map that
preserves the categorical columns and every numeric column other than the
two derived ones, leaves rows outside the group untouched, and stamps the
group's rows' baseline column with the reference of the incoming frame. -/
theorem processGroup_shape (key : String) (bcols bvals : List String)
    (scol tcol bcol : String) (correction : Bool) (agg : List ℝ → ℝ)
    (d : List Row) (k : String)
    (hst : scol ≠ tcol) (hbt : bcol ≠ tcol) (hsb : scol ≠ bcol) :
    ∃ f : Row → Row,
      processGroup key bcols bvals scol tcol bcol correction agg d k = d.map f ∧
      (∀ r, (f r).cat = r.cat) ∧
      (∀ r c, c ≠ scol → c ≠ bcol → (f r).num c = r.num c) ∧
      (∀ r, r.cat key ≠ k → f r = r) ∧
      (∀ r, r.cat key = k → (f r).num bcol = agg (baselineNums bcols bvals tcol d)) := by
  cases correction with
  | false =>
      refine ⟨rawWrite key scol tcol bcol k (agg (baselineNums bcols bvals tcol d)),
        processGroup_false key bcols bvals scol tcol bcol agg d k, ?_, ?_, ?_, ?_⟩
      · intro r
        exact cat_rawWrite key scol tcol bcol k _ r
      · intro r c hcs hcb
        exact num_rawWrite_ne key scol tcol bcol k _ r c hcs hcb
      · intro r h
        unfold rawWrite
        rw [if_neg h]
      · intro r h
        unfold rawWrite
        rw [if_pos h, num_writeRow_bcol]
  | true =>
      refine ⟨fun r => corrWrite key scol k
          (gmean (baselineNums bcols bvals scol
            (d.map (rawWrite key scol tcol bcol k (agg (baselineNums bcols bvals tcol d))))))
          (rawWrite key scol tcol bcol k (agg (baselineNums bcols bvals tcol d)) r),
        ?_, ?_, ?_, ?_, ?_⟩
      · simp only [processGroup, if_true]
        rw [List.map_map]
        rfl
      · intro r
        dsimp only
        rw [cat_corrWrite, cat_rawWrite]
      · intro r c hcs hcb
        dsimp only
        rw [num_corrWrite_ne _ _ _ _ _ _ hcs, num_rawWrite_ne _ _ _ _ _ _ _ _ hcs hcb]
      · intro r h
        dsimp only
        have hr : rawWrite key scol tcol bcol k (agg (baselineNums bcols bvals tcol d)) r = r := by
          unfold rawWrite
          rw [if_neg h]
        rw [hr]
        unfold corrWrite
        rw [if_neg h]
      · intro r h
        dsimp only
        rw [num_corrWrite_ne _ _ _ _ _ _ (Ne.symm hsb)]
        unfold rawWrite
        rw [if_pos h, num_writeRow_bcol]

/-- Shape of the whole loop: a per-row map preserving the categorical
columns and all numeric columns but the derived two; rows of unprocessed
keys are untouched, rows of processed keys carry the initial frame's
reference in the baseline column. -/
theorem foldl_processGroup_shape (key : String) (bcols bvals : List String)
    (scol tcol bcol : String) (correction : Bool) (agg : List ℝ → ℝ)
    (hst : scol ≠ tcol) (hbt : bcol ≠ tcol) (hsb : scol ≠ bcol) :
    ∀ (ks : List String) (d : List Row),
      ∃ F : Row → Row,
        List.foldl (processGroup key bcols bvals scol tcol bcol correction agg) d ks
          = d.map F ∧
        (∀ r, (F r).cat = r.cat) ∧
        (∀ r c, c ≠ scol → c ≠ bcol → (F r).num c = r.num c) ∧
        (∀ r, r.cat key ∉ ks → F r = r) ∧
        (∀ r, r.cat key ∈ ks → (F r).num bcol = agg (baselineNums bcols bvals tcol d)) := by
  intro ks
  induction ks with
  | nil =>
      intro d
      exact ⟨id, by rw [List.foldl_nil, List.map_id], fun r => rfl, fun r c _ _ => rfl,
        fun r _ => rfl, fun r h => absurd h (List.not_mem_nil _)⟩
  | cons k ks ih =>
      intro d
      obtain ⟨f, hmap, hcat, hnum, hid, hbc⟩ :=
        processGroup_shape key bcols bvals scol tcol bcol correction agg d k hst hbt hsb
      obtain ⟨F', hmap', hcat', hnum', hid', hbc'⟩ :=
        ih (processGroup key bcols bvals scol tcol bcol correction agg d k)
      have hbase : agg (baselineNums bcols bvals tcol
          (processGroup key bcols bvals scol tcol bcol correction agg d k))
            = agg (baselineNums bcols bvals tcol d) := by
        rw [hmap, baselineNums_map bcols bvals tcol d f hcat
          (fun r => hnum r tcol (Ne.symm hst) (Ne.symm hbt))]
      refine ⟨fun r => F' (f r), ?_, ?_, ?_, ?_, ?_⟩
      · rw [List.foldl_cons, hmap', hmap, List.map_map]
        rfl
      · intro r
        dsimp only
        rw [hcat', hcat]
      · intro r c hcs hcb
        dsimp only
        rw [hnum' _ _ hcs hcb, hnum _ _ hcs hcb]
      · intro r h
        dsimp only
        have h1 : r.cat key ≠ k := fun hc => h (by rw [hc]; exact List.mem_cons_self k ks)
        have h2 : r.cat key ∉ ks := fun hc => h (List.mem_cons_of_mem k hc)
        rw [hid r h1, hid' r h2]
      · intro r h
        dsimp only
        by_cases h2 : (f r).cat key ∈ ks
        · rw [hbc' (f r) h2, hbase]
        · rw [hid' (f r) h2]
          have h2' : r.cat key ∉ ks := by
            rw [hcat r] at h2
            exact h2
          rcases List.mem_cons.1 h with hk | h'
          · exact hbc r hk
          · exact absurd h' h2'

/-! ### The group iteration order -/

theorem insS_perm (x : String) (l : List String) : (insS x l).Perm (x :: l) := by
  induction l with
  | nil => exact List.Perm.refl _
  | cons y ys ih =>
      unfold insS
      by_cases h : strLe x y = true
      · rw [if_pos h]
      · rw [if_neg h]
        exact (List.Perm.cons y ih).trans (List.Perm.swap x y ys)

theorem sortStr_perm (l : List String) : (sortStr l).Perm l := by
  induction l with
  | nil => exact List.Perm.refl _
  | cons x xs ih =>
      unfold sortStr
      rw [List.foldr_cons]
      exact (insS_perm x (sortStr xs)).trans (List.Perm.cons x ih)

theorem mem_sortStr (x : String) (l : List String) : x ∈ sortStr l ↔ x ∈ l :=
  (sortStr_perm l).mem_iff

theorem mem_firstSeen_aux (l : List String) :
    ∀ (acc : List String) (x : String),
      x ∈ l.foldl (fun acc k => if k ∈ acc then acc else acc ++ [k]) acc
        ↔ x ∈ acc ∨ x ∈ l := by
  induction l with
  | nil =>
      intro acc x
      simp
  | cons k l ih =>
      intro acc x
      rw [List.foldl_cons]
      by_cases h : k ∈ acc
      · rw [if_pos h, ih acc x, List.mem_cons]
        constructor
        · rintro (ha | hl)
          · exact Or.inl ha
          · exact Or.inr (Or.inr hl)
        · rintro (ha | he | hl)
          · exact Or.inl ha
          · exact Or.inl (he ▸ h)
          · exact Or.inr hl
      · rw [if_neg h, ih (acc ++ [k]) x, List.mem_append, List.mem_singleton, List.mem_cons]
        tauto
  
theorem mem_firstSeenKeys (l : List String) (x : String) :
    x ∈ firstSeenKeys l ↔ x ∈ l := by
  unfold firstSeenKeys
  rw [mem_firstSeen_aux l [] x]
  simp

theorem mem_groupOrder (d : List Row) (key : String) (r : Row) (hr : r ∈ d) :
    r.cat key ∈ groupOrder d key := by
  unfold groupOrder
  rw [mem_sortStr, mem_firstSeenKeys]
  exact List.mem_map_of_mem (fun r => r.cat key) hr

theorem charListLe_total (as bs : List Char) :
    charListLe as bs = true ∨ charListLe bs as = true := by
  induction as generalizing bs with
  | nil => exact Or.inl rfl
  | cons a as ih =>
      cases bs with
      | nil => exact Or.inr rfl
      | cons b bs =>
          unfold charListLe
          by_cases hab : a < b
          · left
            rw [if_pos hab]
          · by_cases hba : b < a
            · right
              rw [if_pos hba]
            · rw [if_neg hab, if_neg hba, if_neg hba, if_neg hab]
              exact ih bs

theorem charListLe_trans (as bs cs : List Char)
    (h1 : charListLe as bs = true) (h2 : charListLe bs cs = true) :
    charListLe as cs = true := by
  induction as generalizing bs cs with
  | nil => rfl
  | cons a as ih =>
      cases bs with
      | nil =>
          exact absurd h1 (by unfold charListLe; exact Bool.false_ne_true)
      | cons b bs =>
          cases cs with
          | nil =>
              exact absurd h2 (by unfold charListLe; exact Bool.false_ne_true)
          | cons c cs =>
              unfold charListLe at h1 h2 ⊢
              by_cases hab : a < b
              · by_cases hbc : b < c
                · rw [if_pos (hab.trans hbc)]
                · rw [if_neg hbc] at h2
                  by_cases hcb : c < b
                  · rw [if_pos hcb] at h2
                    exact absurd h2 Bool.false_ne_true
                  · have hbceq : b = c := le_antisymm (not_lt.1 hcb) (not_lt.1 hbc)
                    rw [if_pos (hbceq ▸ hab)]
              · rw [if_neg hab] at h1
                by_cases hba : b < a
                · rw [if_pos hba] at h1
                  exact absurd h1 Bool.false_ne_true
                · rw [if_neg hba] at h1
                  have habeq : a = b := le_antisymm (not_lt.1 hba) (not_lt.1 hab)
                  subst habeq
                  by_cases hac : a < c
                  · rw [if_pos hac]
                  · rw [if_neg hac] at h2 ⊢
                    by_cases hca : c < a
                    · rw [if_pos hca] at h2
                      exact absurd h2 Bool.false_ne_true
                    · rw [if_neg hca] at h2 ⊢
                      exact ih bs cs h1 h2
  
theorem strLe_total (a b : String) : strLe a b = true ∨ strLe b a = true :=
  charListLe_total a.data b.data

theorem strLe_trans (a b c : String) (h1 : strLe a b = true) (h2 : strLe b c = true) :
    strLe a c = true :=
  charListLe_trans a.data b.data c.data h1 h2

theorem mem_insS (x y : String) (l : List String) :
    y ∈ insS x l ↔ y = x ∨ y ∈ l :=
  (insS_perm x l).mem_iff.trans List.mem_cons

theorem sorted_insS (x : String) (l : List String)
    (h : List.Sorted (fun a b => strLe a b = true) l) :
    List.Sorted (fun a b => strLe a b = true) (insS x l) := by
  induction l with
  | nil => exact List.sorted_singleton x
  | cons y ys ih =>
      unfold insS
      by_cases hxy : strLe x y = true
      · rw [if_pos hxy]
        rw [List.sorted_cons]
        refine ⟨?_, h⟩
        intro b hb
        rcases List.mem_cons.1 hb with hby | hbys
        · exact hby ▸ hxy
        · exact strLe_trans x y b hxy ((List.sorted_cons.1 h).1 b hbys)
      · rw [if_neg hxy]
        have hyx : strLe y x = true := (strLe_total x y).resolve_left hxy
        rw [List.sorted_cons]
        refine ⟨?_, ih (List.sorted_cons.1 h).2⟩
        intro b hb
        rcases (mem_insS x b ys).1 hb with hbx | hbys
        · exact hbx ▸ hyx
        · exact (List.sorted_cons.1 h).1 b hbys

theorem sortStr_sorted (l : List String) :
    List.Sorted (fun a b => strLe a b = true) (sortStr l) := by
  induction l with
  | nil => exact List.sorted_nil
  | cons x xs ih =>
      unfold sortStr
      rw [List.foldr_cons]
      exact sorted_insS x (sortStr xs) ih

theorem groupOrder_sorted (d : List Row) (key : String) :
    List.Sorted (fun a b => strLe a b = true) (groupOrder d key) :=
  sortStr_sorted _

/-! ### The speedup computation, correction off -/

theorem baselineNums_initRows (bcols bvals : List String) (c scol bcol : String)
    (data : List Row) (hcs : c ≠ scol) (hcb : c ≠ bcol) :
    baselineNums bcols bvals c (initRows data scol bcol) = baselineNums bcols bvals c data := by
  unfold initRows
  exact baselineNums_map bcols bvals c data _ (fun r => cat_initRow scol bcol r)
    (fun r => num_initRow_ne scol bcol r c hcs hcb)

/-- Closed form of the uncorrected run: every row is initialised and then
written once with the reference computed from the original frame. -/
theorem compute_false_eq (data : List Row) (key : String) (bcols bvals : List String)
    (scol tcol bcol : String) (agg : List ℝ → ℝ)
    (hst : scol ≠ tcol) (hbt : bcol ≠ tcol) (hsb : scol ≠ bcol) :
    compute_speedup_df data key bcols bvals scol tcol bcol false agg
      = (initRows data scol bcol).map
          (fun r => writeRow scol tcol bcol (agg (baselineNums bcols bvals tcol data)) r) := by
  unfold compute_speedup_df compute_speedup_df_with_order
  rw [foldl_processGroup_false key bcols bvals scol tcol bcol agg hst hbt hsb _ _]
  rw [baselineNums_initRows bcols bvals tcol scol bcol data (Ne.symm hst) (Ne.symm hbt)]
  refine List.map_congr_left ?_
  intro r hr
  rw [if_pos (mem_groupOrder _ key r hr)]

/-- C1: with correction disabled, positive timings and a non-empty baseline
subset, every output row's baseline-time column holds the aggregate (by
default the median) of the baseline subset's timing values, and its speedup
times its own timing equals that baseline time. -/
theorem compute_speedup_df_no_correction_spec
    (data : List Row) (key : String) (bcols bvals : List String)
    (scol tcol bcol : String) (agg : List ℝ → ℝ)
    (hst : scol ≠ tcol) (hbt : bcol ≠ tcol) (hsb : scol ≠ bcol)
    (hpos : ∀ r ∈ data, 0 < r.num tcol)
    (hne : ∃ r ∈ data, matchesFilter bcols bvals r = true) :
    ∀ r ∈ compute_speedup_df data key bcols bvals scol tcol bcol false agg,
      r.num bcol = agg (baselineNums bcols bvals tcol data) ∧
      r.num scol * r.num tcol = r.num bcol := by
  intro r hr
  rw [compute_false_eq data key bcols bvals scol tcol bcol agg hst hbt hsb] at hr
  unfold initRows at hr
  rw [List.map_map] at hr
  obtain ⟨a, ha, rfl⟩ := List.mem_map.1 hr
  dsimp only [Function.comp]
  constructor
  · rw [num_writeRow_bcol]
  · rw [num_writeRow_bcol, num_writeRow_scol _ _ _ _ _ hsb,
      num_writeRow_ne _ _ _ _ _ tcol (Ne.symm hst) (Ne.symm hbt),
      num_initRow_ne scol bcol a tcol (Ne.symm hst) (Ne.symm hbt)]
    exact div_mul_cancel₀ _ (ne_of_gt (hpos a ha))

/-- C4: the reference is recomputed at every group iteration but never
changes (the loop preserves the filter columns and the timing column), and
after the run the baseline-time column holds one identical value on every
row, for either correction setting. -/
theorem compute_speedup_df_reference_invariant
    (data : List Row) (key : String) (bcols bvals : List String)
    (scol tcol bcol : String) (correction : Bool) (agg : List ℝ → ℝ)
    (hst : scol ≠ tcol) (hbt : bcol ≠ tcol) (hsb : scol ≠ bcol) :
    (∀ ks : List String,
      baselineNums bcols bvals tcol
        (List.foldl (processGroup key bcols bvals scol tcol bcol correction agg)
          (initRows data scol bcol) ks)
        = baselineNums bcols bvals tcol data) ∧
    (∀ r1 ∈ compute_speedup_df data key bcols bvals scol tcol bcol correction agg,
      ∀ r2 ∈ compute_speedup_df data key bcols bvals scol tcol bcol correction agg,
        r1.num bcol = r2.num bcol) := by
  have hinit : baselineNums bcols bvals tcol (initRows data scol bcol)
      = baselineNums bcols bvals tcol data :=
    baselineNums_initRows bcols bvals tcol scol bcol data (Ne.symm hst) (Ne.symm hbt)
  constructor
  · intro ks
    obtain ⟨F, hmap, hcat, hnum, _, _⟩ :=
      foldl_processGroup_shape key bcols bvals scol tcol bcol correction agg hst hbt hsb
        ks (initRows data scol bcol)
    rw [hmap,
      baselineNums_map bcols bvals tcol _ F hcat (fun r => hnum r tcol (Ne.symm hst) (Ne.symm hbt)),
      hinit]
  · have hall : ∀ r ∈ compute_speedup_df data key bcols bvals scol tcol bcol correction agg,
        r.num bcol = agg (baselineNums bcols bvals tcol (initRows data scol bcol)) := by
      intro r hr
      obtain ⟨F, hmap, hcat, hnum, hid, hbc⟩ :=
        foldl_processGroup_shape key bcols bvals scol tcol bcol correction agg hst hbt hsb
          (groupOrder (initRows data scol bcol) key) (initRows data scol bcol)
      unfold compute_speedup_df compute_speedup_df_with_order at hr
      rw [hmap] at hr
      obtain ⟨r0, hr0, rfl⟩ := List.mem_map.1 hr
      exact hbc r0 (mem_groupOrder _ key r0 hr0)
    intro r1 h1 r2 h2
    rw [hall r1 h1, hall r2 h2]

/-- C5: when the baseline filter matches no rows, the run still completes:
the aggregator is applied to the empty list and the resulting reference is
written, unquestioned, into the baseline-time column of every row, with the
speedup column receiving that reference divided by the row's timing. -/
theorem compute_speedup_df_empty_baseline
    (data : List Row) (key : String) (bcols bvals : List String)
    (scol tcol bcol : String) (agg : List ℝ → ℝ)
    (hst : scol ≠ tcol) (hbt : bcol ≠ tcol) (hsb : scol ≠ bcol)
    (hempty : ∀ r ∈ data, matchesFilter bcols bvals r = false) :
    ∀ r ∈ compute_speedup_df data key bcols bvals scol tcol bcol false agg,
      r.num bcol = agg [] ∧ r.num scol = agg [] / r.num tcol := by
  intro r hr
  rw [compute_false_eq data key bcols bvals scol tcol bcol agg hst hbt hsb,
    baselineNums_nil bcols bvals tcol data hempty] at hr
  unfold initRows at hr
  rw [List.map_map] at hr
  obtain ⟨a, ha, rfl⟩ := List.mem_map.1 hr
  dsimp only [Function.comp]
  constructor
  · rw [num_writeRow_bcol]
  · rw [num_writeRow_scol _ _ _ _ _ hsb,
      num_writeRow_ne _ _ _ _ _ tcol (Ne.symm hst) (Ne.symm hbt)]

/-- C6: the frame effect of the run, for either correction setting: the row
count and order are unchanged, every categorical column is unchanged, every
numeric column other than the speedup and baseline-time columns is
unchanged, and the two derived columns are initialised to 1 and 0 before
being overwritten. -/
theorem compute_speedup_df_frame
    (data : List Row) (key : String) (bcols bvals : List String)
    (scol tcol bcol : String) (correction : Bool) (agg : List ℝ → ℝ)
    (hst : scol ≠ tcol) (hbt : bcol ≠ tcol) (hsb : scol ≠ bcol) :
    (compute_speedup_df data key bcols bvals scol tcol bcol correction agg).length
        = data.length ∧
    (compute_speedup_df data key bcols bvals scol tcol bcol correction agg).map
        (fun r => r.cat) = data.map (fun r => r.cat) ∧
    (∀ c, c ≠ scol → c ≠ bcol →
      (compute_speedup_df data key bcols bvals scol tcol bcol correction agg).map
          (fun r => r.num c) = data.map (fun r => r.num c)) ∧
    (∀ r ∈ initRows data scol bcol, r.num scol = 1 ∧ r.num bcol = 0) := by
  obtain ⟨F, hmap, hcat, hnum, _, _⟩ :=
    foldl_processGroup_shape key bcols bvals scol tcol bcol correction agg hst hbt hsb
      (groupOrder (initRows data scol bcol) key) (initRows data scol bcol)
  have hc : compute_speedup_df data key bcols bvals scol tcol bcol correction agg
      = (initRows data scol bcol).map F := hmap
  refine ⟨?_, ?_, ?_, ?_⟩
  · rw [hc, List.length_map]
    unfold initRows
    rw [List.length_map]
  · rw [hc, List.map_map]
    unfold initRows
    rw [List.map_map]
    refine List.map_congr_left ?_
    intro a _
    dsimp only [Function.comp]
    rw [hcat, cat_initRow]
  · intro c hcs hcb
    rw [hc, List.map_map]
    unfold initRows
    rw [List.map_map]
    refine List.map_congr_left ?_
    intro a _
    dsimp only [Function.comp]
    rw [hnum _ _ hcs hcb, num_initRow_ne _ _ _ _ hcs hcb]
  · intro r hr
    unfold initRows at hr
    obtain ⟨a, _, rfl⟩ := List.mem_map.1 hr
    exact ⟨num_initRow_scol scol bcol a hsb, num_initRow_bcol scol bcol a⟩

/-- C7: running the uncorrected computation twice over the same
configuration reproduces the first run exactly. -/
theorem compute_speedup_df_idempotent
    (data : List Row) (key : String) (bcols bvals : List String)
    (scol tcol bcol : String) (agg : List ℝ → ℝ)
    (hst : scol ≠ tcol) (hbt : bcol ≠ tcol) (hsb : scol ≠ bcol) :
    compute_speedup_df (compute_speedup_df data key bcols bvals scol tcol bcol false agg)
        key bcols bvals scol tcol bcol false agg
      = compute_speedup_df data key bcols bvals scol tcol bcol false agg := by
  have href : baselineNums bcols bvals tcol
      (compute_speedup_df data key bcols bvals scol tcol bcol false agg)
        = baselineNums bcols bvals tcol data := by
    rw [compute_false_eq data key bcols bvals scol tcol bcol agg hst hbt hsb]
    rw [baselineNums_map bcols bvals tcol _ _
      (fun r => cat_writeRow scol tcol bcol _ r)
      (fun r => num_writeRow_ne scol tcol bcol _ r tcol (Ne.symm hst) (Ne.symm hbt))]
    exact baselineNums_initRows bcols bvals tcol scol bcol data (Ne.symm hst) (Ne.symm hbt)
  rw [compute_false_eq (compute_speedup_df data key bcols bvals scol tcol bcol false agg)
    key bcols bvals scol tcol bcol agg hst hbt hsb]
  rw [href]
  rw [compute_false_eq data key bcols bvals scol tcol bcol agg hst hbt hsb]
  unfold initRows
  simp only [List.map_map]
  refine List.map_congr_left ?_
  intro a _
  dsimp only [Function.comp]
  refine writeRow_congr scol tcol bcol _ _ _ hst hbt ?_ ?_
  · rw [cat_initRow, cat_writeRow, cat_initRow]
  · intro c hcs hcb
    rw [num_initRow_ne _ _ _ _ hcs hcb, num_writeRow_ne _ _ _ _ _ _ hcs hcb,
      num_initRow_ne _ _ _ _ hcs hcb]

/-- C3 (amended): the group loop iterates the distinct keys in ascending
sorted order (pandas' `sort=True` default), not first-seen order; and with
correction disabled, processing the groups in any order containing the same
keys produces the same frame. -/
theorem compute_speedup_df_order
    (data : List Row) (key : String) (bcols bvals : List String)
    (scol tcol bcol : String) (agg : List ℝ → ℝ)
    (hst : scol ≠ tcol) (hbt : bcol ≠ tcol) (hsb : scol ≠ bcol) :
    List.Sorted (fun a b => strLe a b = true) (groupOrder (initRows data scol bcol) key) ∧
    (∀ o : List String,
      (∀ k, k ∈ o ↔ k ∈ groupOrder (initRows data scol bcol) key) →
      compute_speedup_df_with_order o data key bcols bvals scol tcol bcol false agg
        = compute_speedup_df data key bcols bvals scol tcol bcol false agg) := by
  refine ⟨groupOrder_sorted _ _, ?_⟩
  intro o ho
  unfold compute_speedup_df compute_speedup_df_with_order
  rw [foldl_processGroup_false key bcols bvals scol tcol bcol agg hst hbt hsb o _,
    foldl_processGroup_false key bcols bvals scol tcol bcol agg hst hbt hsb _ _]
  refine List.map_congr_left ?_
  intro r _
  by_cases h : r.cat key ∈ groupOrder (initRows data scol bcol) key
  · rw [if_pos ((ho _).2 h), if_pos h]
  · rw [if_neg (fun hc => h ((ho _).1 hc)), if_neg h]

/-! ### Concrete witness data -/

/-- A one-row example table entry: group key column "grp" holds `g`, every
other categorical column holds `b`, the timing column "t" holds `t`. -/
noncomputable def exRow (g b : String) (t : ℝ) : Row :=
  ⟨fun c => if c = "grp" then g else b, fun c => if c = "t" then t else 0⟩

theorem compute_speedup_df_no_correction_spec_witness :
    (("sp" : String) ≠ "t" ∧ ("bl" : String) ≠ "t" ∧ ("sp" : String) ≠ "bl") ∧
    (∀ r ∈ [exRow "x" "yes" 2], 0 < r.num "t") ∧
    (∃ r ∈ [exRow "x" "yes" 2], matchesFilter ["base"] ["yes"] r = true) ∧
    (∀ r ∈ compute_speedup_df [exRow "x" "yes" 2] "grp" ["base"] ["yes"] "sp" "t" "bl"
        false median,
      r.num "bl" = median (baselineNums ["base"] ["yes"] "t" [exRow "x" "yes" 2]) ∧
      r.num "sp" * r.num "t" = r.num "bl") := by
  have h1 : ("sp" : String) ≠ "t" := by decide
  have h2 : ("bl" : String) ≠ "t" := by decide
  have h3 : ("sp" : String) ≠ "bl" := by decide
  have hpos : ∀ r ∈ [exRow "x" "yes" 2], 0 < r.num "t" := by
    intro r hr
    rw [List.mem_singleton] at hr
    subst hr
    norm_num [exRow]
  have hne : ∃ r ∈ [exRow "x" "yes" 2], matchesFilter ["base"] ["yes"] r = true :=
    ⟨exRow "x" "yes" 2, List.mem_singleton.2 rfl, by decide⟩
  exact ⟨⟨h1, h2, h3⟩, hpos, hne,
    compute_speedup_df_no_correction_spec [exRow "x" "yes" 2] "grp" ["base"] ["yes"]
      "sp" "t" "bl" median h1 h2 h3 hpos hne⟩

theorem compute_speedup_df_reference_invariant_witness :
    (("sp" : String) ≠ "t" ∧ ("bl" : String) ≠ "t" ∧ ("sp" : String) ≠ "bl") ∧
    (∀ ks : List String,
      baselineNums ["base"] ["yes"] "t"
        (List.foldl (processGroup "grp" ["base"] ["yes"] "sp" "t" "bl" true median)
          (initRows [exRow "x" "yes" 2] "sp" "bl") ks)
        = baselineNums ["base"] ["yes"] "t" [exRow "x" "yes" 2]) ∧
    (∀ r1 ∈ compute_speedup_df [exRow "x" "yes" 2] "grp" ["base"] ["yes"] "sp" "t" "bl"
        true median,
      ∀ r2 ∈ compute_speedup_df [exRow "x" "yes" 2] "grp" ["base"] ["yes"] "sp" "t" "bl"
        true median,
        r1.num "bl" = r2.num "bl") := by
  have h1 : ("sp" : String) ≠ "t" := by decide
  have h2 : ("bl" : String) ≠ "t" := by decide
  have h3 : ("sp" : String) ≠ "bl" := by decide
  obtain ⟨ha, hb⟩ := compute_speedup_df_reference_invariant [exRow "x" "yes" 2] "grp"
    ["base"] ["yes"] "sp" "t" "bl" true median h1 h2 h3
  exact ⟨⟨h1, h2, h3⟩, ha, hb⟩

theorem compute_speedup_df_empty_baseline_witness :
    (("sp" : String) ≠ "t" ∧ ("bl" : String) ≠ "t" ∧ ("sp" : String) ≠ "bl") ∧
    (∀ r ∈ [exRow "x" "no" 2], matchesFilter ["base"] ["yes"] r = false) ∧
    (∀ r ∈ compute_speedup_df [exRow "x" "no" 2] "grp" ["base"] ["yes"] "sp" "t" "bl"
        false median,
      r.num "bl" = median [] ∧ r.num "sp" = median [] / r.num "t") := by
  have h1 : ("sp" : String) ≠ "t" := by decide
  have h2 : ("bl" : String) ≠ "t" := by decide
  have h3 : ("sp" : String) ≠ "bl" := by decide
  have hempty : ∀ r ∈ [exRow "x" "no" 2], matchesFilter ["base"] ["yes"] r = false := by
    intro r hr
    rw [List.mem_singleton] at hr
    subst hr
    decide
  exact ⟨⟨h1, h2, h3⟩, hempty,
    compute_speedup_df_empty_baseline [exRow "x" "no" 2] "grp" ["base"] ["yes"]
      "sp" "t" "bl" median h1 h2 h3 hempty⟩

theorem compute_speedup_df_frame_witness :
    (("sp" : String) ≠ "t" ∧ ("bl" : String) ≠ "t" ∧ ("sp" : String) ≠ "bl") ∧
    ((compute_speedup_df [exRow "x" "yes" 2] "grp" ["base"] ["yes"] "sp" "t" "bl"
        true median).length = [exRow "x" "yes" 2].length ∧
    (compute_speedup_df [exRow "x" "yes" 2] "grp" ["base"] ["yes"] "sp" "t" "bl"
        true median).map (fun r => r.cat) = [exRow "x" "yes" 2].map (fun r => r.cat) ∧
    (∀ c, c ≠ "sp" → c ≠ "bl" →
      (compute_speedup_df [exRow "x" "yes" 2] "grp" ["base"] ["yes"] "sp" "t" "bl"
          true median).map (fun r => r.num c) = [exRow "x" "yes" 2].map (fun r => r.num c)) ∧
    (∀ r ∈ initRows [exRow "x" "yes" 2] "sp" "bl", r.num "sp" = 1 ∧ r.num "bl" = 0)) := by
  have h1 : ("sp" : String) ≠ "t" := by decide
  have h2 : ("bl" : String) ≠ "t" := by decide
  have h3 : ("sp" : String) ≠ "bl" := by decide
  exact ⟨⟨h1, h2, h3⟩,
    compute_speedup_df_frame [exRow "x" "yes" 2] "grp" ["base"] ["yes"] "sp" "t" "bl"
      true median h1 h2 h3⟩

theorem compute_speedup_df_idempotent_witness :
    (("sp" : String) ≠ "t" ∧ ("bl" : String) ≠ "t" ∧ ("sp" : String) ≠ "bl") ∧
    compute_speedup_df
        (compute_speedup_df [exRow "x" "yes" 2] "grp" ["base"] ["yes"] "sp" "t" "bl"
          false median)
        "grp" ["base"] ["yes"] "sp" "t" "bl" false median
      = compute_speedup_df [exRow "x" "yes" 2] "grp" ["base"] ["yes"] "sp" "t" "bl"
          false median := by
  have h1 : ("sp" : String) ≠ "t" := by decide
  have h2 : ("bl" : String) ≠ "t" := by decide
  have h3 : ("sp" : String) ≠ "bl" := by decide
  exact ⟨⟨h1, h2, h3⟩,
    compute_speedup_df_idempotent [exRow "x" "yes" 2] "grp" ["base"] ["yes"]
      "sp" "t" "bl" median h1 h2 h3⟩

theorem compute_speedup_df_order_witness :
    (("sp" : String) ≠ "t" ∧ ("bl" : String) ≠ "t" ∧ ("sp" : String) ≠ "bl") ∧
    (List.Sorted (fun a b => strLe a b = true)
      (groupOrder (initRows [exRow "x" "yes" 2] "sp" "bl") "grp") ∧
    (∀ o : List String,
      (∀ k, k ∈ o ↔ k ∈ groupOrder (initRows [exRow "x" "yes" 2] "sp" "bl") "grp") →
      compute_speedup_df_with_order o [exRow "x" "yes" 2] "grp" ["base"] ["yes"]
          "sp" "t" "bl" false median
        = compute_speedup_df [exRow "x" "yes" 2] "grp" ["base"] ["yes"]
            "sp" "t" "bl" false median)) := by
  have h1 : ("sp" : String) ≠ "t" := by decide
  have h2 : ("bl" : String) ≠ "t" := by decide
  have h3 : ("sp" : String) ≠ "bl" := by decide
  exact ⟨⟨h1, h2, h3⟩,
    compute_speedup_df_order [exRow "x" "yes" 2] "grp" ["base"] ["yes"] "sp" "t" "bl"
      median h1 h2 h3⟩

/-! ### Evaluating the corrected run on a concrete table

The correction's geometric mean is recomputed per group from the partially
corrected frame, so both the final gmean over the baseline subset and the
order of group processing become observable.  The table below (one group
"a" with timing 1, one group "b" with timings 1/2 and 1024, every row in
the baseline subset, reference = median = 1) witnesses both effects with
rational arithmetic throughout. -/

theorem log_sum_eq_log_prod (xs : List ℝ) (h : ∀ x ∈ xs, 0 < x) :
    (xs.map Real.log).sum = Real.log xs.prod := by
  induction xs with
  | nil => simp
  | cons x xs ih =>
      rw [List.map_cons, List.sum_cons, List.prod_cons,
        Real.log_mul (ne_of_gt (h x (List.mem_cons_self x xs)))
          (ne_of_gt (List.prod_pos (fun a ha => h a (List.mem_cons_of_mem x ha)))),
        ih (fun a ha => h a (List.mem_cons_of_mem x ha))]

/-- The geometric mean of a positive list is the n-th root of its product. -/
theorem gmean_eq_of_pow (xs : List ℝ) (y : ℝ) (hxs : xs ≠ [])
    (hpos : ∀ x ∈ xs, 0 < x) (hy : 0 < y) (h : y ^ xs.length = xs.prod) :
    gmean xs = y := by
  unfold gmean
  rw [log_sum_eq_log_prod xs hpos, ← h, Real.log_pow]
  have hn : (xs.length : ℝ) ≠ 0 :=
    Nat.cast_ne_zero.2 (fun h0 => hxs (List.length_eq_zero.1 h0))
  rw [mul_div_cancel_left₀ _ hn]
  exact Real.exp_log hy

theorem median_exT : median [(1:ℝ)/2, 1, 1024] = 1 := by
  have h1 : ((1:ℝ) ≤ 1024) = True := eq_true (by norm_num)
  have h2 : ((1:ℝ)/2 ≤ 1) = True := eq_true (by norm_num)
  have h3 : (((2:ℝ))⁻¹ ≤ 1) = True := eq_true (by norm_num)
  simp [median, sortR, insR, h1, h2, h3]

theorem gmean_ones : gmean [(1:ℝ), 1, 1] = 1 := by
  simp [gmean]

theorem gmean_exT_b : gmean [(2:ℝ), 1, 1/1024] = 1/8 := by
  refine gmean_eq_of_pow _ _ (by simp) ?_ (by norm_num) (by norm_num)
  intro x hx
  rcases List.mem_cons.1 hx with h | hx
  · rw [h]; norm_num
  rcases List.mem_cons.1 hx with h | hx
  · rw [h]; norm_num
  rcases List.mem_cons.1 hx with h | hx
  · rw [h]; norm_num
  · exact absurd hx (List.not_mem_nil x)

theorem gmean_exT_final : gmean [(16:ℝ), 1, 1/128] = 1/2 := by
  refine gmean_eq_of_pow _ _ (by simp) ?_ (by norm_num) (by norm_num)
  intro x hx
  rcases List.mem_cons.1 hx with h | hx
  · rw [h]; norm_num
  rcases List.mem_cons.1 hx with h | hx
  · rw [h]; norm_num
  rcases List.mem_cons.1 hx with h | hx
  · rw [h]; norm_num
  · exact absurd hx (List.not_mem_nil x)

/-- Normal form for the rows of the worked example: group key `g`, timing
`t`, speedup `s`, baseline `b`, every other categorical column `"yes"`. -/
noncomputable def mkRow (g : String) (t s b : ℝ) : Row :=
  ⟨fun c => if c = "grp" then g else "yes",
   fun c => if c = "t" then t else if c = "sp" then s else if c = "bl" then b else 0⟩

theorem cat_mkRow_grp (g : String) (t s b : ℝ) : (mkRow g t s b).cat "grp" = g := rfl

theorem matchesFilter_mkRow (g : String) (t s b : ℝ) :
    matchesFilter ["base"] ["yes"] (mkRow g t s b) = true := rfl

theorem num_mkRow_t (g : String) (t s b : ℝ) : (mkRow g t s b).num "t" = t := rfl

theorem num_mkRow_sp (g : String) (t s b : ℝ) : (mkRow g t s b).num "sp" = s := rfl

theorem setNum_mkRow_sp (g : String) (t s b v : ℝ) :
    setNum (mkRow g t s b) "sp" v = mkRow g t v b := by
  unfold mkRow setNum
  refine Row.ext rfl ?_
  funext c
  dsimp only
  rw [Function.update_apply]
  by_cases hs : c = "sp"
  · subst hs
    simp
  · rw [if_neg hs]
    by_cases ht : c = "t"
    · rw [if_pos ht, if_pos ht]
    · rw [if_neg ht, if_neg ht, if_neg hs, if_neg hs]

theorem setNum_mkRow_bl (g : String) (t s b v : ℝ) :
    setNum (mkRow g t s b) "bl" v = mkRow g t s v := by
  unfold mkRow setNum
  refine Row.ext rfl ?_
  funext c
  dsimp only
  rw [Function.update_apply]
  by_cases hb : c = "bl"
  · subst hb
    simp
  · rw [if_neg hb]
    by_cases ht : c = "t"
    · rw [if_pos ht, if_pos ht]
    · rw [if_neg ht, if_neg ht]
      by_cases hs : c = "sp"
      · rw [if_pos hs, if_pos hs]
      · rw [if_neg hs, if_neg hs, if_neg hb, if_neg hb]

theorem exT_stage_a0 :
    processGroup "grp" ["base"] ["yes"] "sp" "t" "bl" true median
        [mkRow "b" (1/2) 1 0, mkRow "a" 1 1 0, mkRow "b" 1024 1 0] "a"
      = [mkRow "b" (1/2) 1 0, mkRow "a" 1 1 1, mkRow "b" 1024 1 0] := by
  have hba : (("b" : String) = "a") = False := eq_false (by decide)
  have h11 : (1:ℝ) / 1 = 1 := by norm_num
  simp only [processGroup, baselineNums, rawWrite, corrWrite, writeRow,
    List.filter_cons, List.filter_nil, List.map_cons, List.map_nil,
    matchesFilter_mkRow, cat_mkRow_grp, num_mkRow_t, num_mkRow_sp,
    setNum_mkRow_sp, setNum_mkRow_bl, hba, eq_self_iff_true, if_true, if_false,
    median_exT, h11, gmean_ones]

theorem exT_stage_b1 :
    processGroup "grp" ["base"] ["yes"] "sp" "t" "bl" true median
        [mkRow "b" (1/2) 1 0, mkRow "a" 1 1 1, mkRow "b" 1024 1 0] "b"
      = [mkRow "b" (1/2) 16 1, mkRow "a" 1 1 1, mkRow "b" 1024 (1/128) 1] := by
  have hab : (("a" : String) = "b") = False := eq_false (by decide)
  have hd1 : (1:ℝ) / (1/2) = 2 := by norm_num
  have hd3 : (2:ℝ) / (1/8) = 16 := by norm_num
  have hd4 : ((1:ℝ)/1024) / (1/8) = 1/128 := by norm_num
  simp only [processGroup, baselineNums, rawWrite, corrWrite, writeRow,
    List.filter_cons, List.filter_nil, List.map_cons, List.map_nil,
    matchesFilter_mkRow, cat_mkRow_grp, num_mkRow_t, num_mkRow_sp,
    setNum_mkRow_sp, setNum_mkRow_bl, hab, eq_self_iff_true, if_true, if_false,
    median_exT, hd1, gmean_exT_b, hd3, hd4]

theorem exT_stage_b0 :
    processGroup "grp" ["base"] ["yes"] "sp" "t" "bl" true median
        [mkRow "b" (1/2) 1 0, mkRow "a" 1 1 0, mkRow "b" 1024 1 0] "b"
      = [mkRow "b" (1/2) 16 1, mkRow "a" 1 1 0, mkRow "b" 1024 (1/128) 1] := by
  have hab : (("a" : String) = "b") = False := eq_false (by decide)
  have hd1 : (1:ℝ) / (1/2) = 2 := by norm_num
  have hd3 : (2:ℝ) / (1/8) = 16 := by norm_num
  have hd4 : ((1:ℝ)/1024) / (1/8) = 1/128 := by norm_num
  simp only [processGroup, baselineNums, rawWrite, corrWrite, writeRow,
    List.filter_cons, List.filter_nil, List.map_cons, List.map_nil,
    matchesFilter_mkRow, cat_mkRow_grp, num_mkRow_t, num_mkRow_sp,
    setNum_mkRow_sp, setNum_mkRow_bl, hab, eq_self_iff_true, if_true, if_false,
    median_exT, hd1, gmean_exT_b, hd3, hd4]

theorem exT_stage_a1 :
    processGroup "grp" ["base"] ["yes"] "sp" "t" "bl" true median
        [mkRow "b" (1/2) 16 1, mkRow "a" 1 1 0, mkRow "b" 1024 (1/128) 1] "a"
      = [mkRow "b" (1/2) 16 1, mkRow "a" 1 2 1, mkRow "b" 1024 (1/128) 1] := by
  have hba : (("b" : String) = "a") = False := eq_false (by decide)
  have h11 : (1:ℝ) / 1 = 1 := by norm_num
  have hd1 : (1:ℝ) / (1/2) = 2 := by norm_num
  simp only [processGroup, baselineNums, rawWrite, corrWrite, writeRow,
    List.filter_cons, List.filter_nil, List.map_cons, List.map_nil,
    matchesFilter_mkRow, cat_mkRow_grp, num_mkRow_t, num_mkRow_sp,
    setNum_mkRow_sp, setNum_mkRow_bl, hba, eq_self_iff_true, if_true, if_false,
    median_exT, h11, gmean_exT_final, hd1]

/-- The failing table: one group "a" with timing 1, one group "b" with
timings 1/2 and 1024; every row is in the baseline subset; the median of
the baseline timings is 1.  The rows are ordered so that the first-seen
group order "b", "a" differs from the sorted order "a", "b". -/
noncomputable def exT : List Row :=
  [exRow "b" "yes" (1/2), exRow "a" "yes" 1, exRow "b" "yes" 1024]

theorem initRow_exRow (g : String) (t : ℝ) :
    initRow "sp" "bl" (exRow g "yes" t) = mkRow g t 1 0 := by
  unfold initRow exRow mkRow setNum
  refine Row.ext rfl ?_
  funext c
  dsimp only
  rw [Function.update_apply, Function.update_apply]
  by_cases ht : c = "t"
  · subst ht
    simp
  · rw [if_neg ht, if_neg ht]
    by_cases hs : c = "sp"
    · subst hs
      simp
    · rw [if_neg hs, if_neg hs]

theorem exT_init : initRows exT "sp" "bl"
    = [mkRow "b" (1/2) 1 0, mkRow "a" 1 1 0, mkRow "b" 1024 1 0] := by
  simp only [initRows, exT, List.map_cons, List.map_nil, initRow_exRow]

theorem exT_groupOrder : groupOrder (initRows exT "sp" "bl") "grp" = ["a", "b"] := by
  decide

theorem exT_firstSeenOrder : firstSeenOrder exT "grp" = ["b", "a"] := by
  decide

theorem exT_run_ab :
    compute_speedup_df_with_order ["a", "b"] exT "grp" ["base"] ["yes"] "sp" "t" "bl"
        true median
      = [mkRow "b" (1/2) 16 1, mkRow "a" 1 1 1, mkRow "b" 1024 (1/128) 1] := by
  unfold compute_speedup_df_with_order
  rw [exT_init, List.foldl_cons, exT_stage_a0, List.foldl_cons, exT_stage_b1,
    List.foldl_nil]

theorem exT_run_ba :
    compute_speedup_df_with_order ["b", "a"] exT "grp" ["base"] ["yes"] "sp" "t" "bl"
        true median
      = [mkRow "b" (1/2) 16 1, mkRow "a" 1 2 1, mkRow "b" 1024 (1/128) 1] := by
  unfold compute_speedup_df_with_order
  rw [exT_init, List.foldl_cons, exT_stage_b0, List.foldl_cons, exT_stage_a1,
    List.foldl_nil]

theorem exT_run_sorted :
    compute_speedup_df exT "grp" ["base"] ["yes"] "sp" "t" "bl" true median
      = [mkRow "b" (1/2) 16 1, mkRow "a" 1 1 1, mkRow "b" 1024 (1/128) 1] := by
  unfold compute_speedup_df
  rw [exT_groupOrder]
  exact exT_run_ab

/-- C2: evaluation of the corrected run at the failing input.  All three
rows of `exT` form the baseline subset, yet after the run the geometric
mean of the speedup column over that subset is 1/2, not the 1 promised by
the code's own comment: the per-group correction divides by a geometric
mean read from a frame in which other groups are still uncorrected. -/
theorem compute_speedup_df_correction_gmean_counterexample :
    gmean (baselineNums ["base"] ["yes"] "sp"
        (compute_speedup_df exT "grp" ["base"] ["yes"] "sp" "t" "bl" true median)) = 1/2
      ∧ (1:ℝ)/2 ≠ 1 := by
  constructor
  · rw [exT_run_sorted]
    have hb : baselineNums ["base"] ["yes"] "sp"
        [mkRow "b" (1/2) 16 1, mkRow "a" 1 1 1, mkRow "b" 1024 (1/128) 1]
          = [(16:ℝ), 1, 1/128] := by
      simp only [baselineNums, List.filter_cons, List.filter_nil, matchesFilter_mkRow,
        eq_self_iff_true, if_true, List.map_cons, List.map_nil, num_mkRow_sp]
    rw [hb, gmean_exT_final]
  · norm_num

/-- C3 (counterexample): on `exT` the loop's group order is the sorted
"a", "b", not the first-seen "b", "a"; and with correction on, processing
the groups in the two orders leaves different speedup columns. -/
theorem compute_speedup_df_order_matters :
    groupOrder (initRows exT "sp" "bl") "grp" ≠ firstSeenOrder exT "grp" ∧
    (compute_speedup_df_with_order ["a", "b"] exT "grp" ["base"] ["yes"] "sp" "t" "bl"
        true median).map (fun r => r.num "sp")
      ≠ (compute_speedup_df_with_order ["b", "a"] exT "grp" ["base"] ["yes"] "sp" "t" "bl"
        true median).map (fun r => r.num "sp") := by
  constructor
  · rw [exT_groupOrder, exT_firstSeenOrder]
    decide
  · rw [exT_run_ab, exT_run_ba]
    simp only [List.map_cons, List.map_nil, num_mkRow_sp]
    intro h
    injection h with h1 h2
    injection h2 with h3 h4
    exact absurd h3 (by norm_num)
